import Mathlib

/-!
Verification of the retrieval-grounded prayer-generation pipeline of
Still Small Voice — Prayer.

The definitions below are a shallow embedding of the TypeScript sources:
  * `cleanKJV` and its helpers embed the KJV annotation stripper
    `prayerService.ts` line 42:
    `text.replace(/\s*\{[^}]*\}/g, '').replace(/\s{2,}/g, ' ').trim()`
  * `withRetryGo` embeds the `withRetry` wrapper (lines 14-30),
  * `classify` embeds the confidence-note selection (lines 159-164),
  * `ragStage` embeds the retrieval stage (lines 151-176),
  * `postGenValidate` embeds the post-generation validation / citation
    reconciliation (lines 234-259),
  * `translateIntentToBiblical` embeds the intent translator of
    `pineconeService.ts` (lines 169-204).
JavaScript strings are modelled as `List Char` / `String`, numbers where
they are similarity scores as `ℚ`, thrown exceptions as `Except`.
-/

namespace SSV

/-- The left curly brace character, written via its code point. -/
def lbrace : Char := Char.ofNat 123

/-- The right curly brace character, written via its code point. -/
def rbrace : Char := Char.ofNat 125

/-- JavaScript whitespace class `\s` (also the set trimmed by
`String.prototype.trim`): tab, LF, VT, FF, CR, space, NBSP, and the
Unicode space separators plus line/paragraph separators and BOM. -/
def isJsSpace (c : Char) : Bool :=
  let n := c.toNat
  n == 9 || n == 10 || n == 11 || n == 12 || n == 13 || n == 32 ||
  n == 160 || n == 5760 || (8192 ≤ n && n ≤ 8202) || n == 8232 ||
  n == 8233 || n == 8239 || n == 8287 || n == 12288 || n == 65279

/-- `listStarts pat l` : `pat` is a leading segment of `l`. -/
def listStarts : List Char → List Char → Bool
  | [], _ => true
  | _ :: _, [] => false
  | p :: ps, c :: cs => p == c && listStarts ps cs

/-- `listContainsSeg pat l` : `pat` occurs contiguously inside `l`
(the semantics of JavaScript `String.prototype.includes`). -/
def listContainsSeg : List Char → List Char → Bool
  | pat, [] => listStarts pat []
  | pat, c :: cs => listStarts pat (c :: cs) || listContainsSeg pat cs

/-- JavaScript `s.includes(pat)`. -/
def jsIncludes (s pat : String) : Bool :=
  listContainsSeg pat.toList s.toList

/-- JavaScript `s.split(' ')[0]` — the first segment of a split on a
single space character. -/
def headToken (s : String) : String :=
  (s.splitOn (" ")).headD s

/-- One attempt of the regex `\s*\{[^}]*\}` anchored at the head of `l`:
greedily consume whitespace, require `{`, consume non-`}` characters,
require `}`.  Returns the remainder after the match, or `none` when the
regex does not match at this position. -/
def matchAnnotAt (l : List Char) : Option (List Char) :=
  match l.dropWhile isJsSpace with
  | [] => none
  | c :: cs =>
    if c = lbrace then
      match cs.dropWhile (fun d => !(d == rbrace)) with
      | [] => none
      | _ :: ds => some ds
    else none

/-- Global replacement of `\s*\{[^}]*\}` by the empty string: scan left
to right, at each position either remove a match or emit one character.
`fuel` bounds the recursion; `fuel = l.length` always suffices because a
match consumes at least two characters. -/
def stripAnnotsGo : Nat → List Char → List Char
  | 0, l => l
  | _ + 1, [] => []
  | fuel + 1, c :: cs =>
    match matchAnnotAt (c :: cs) with
    | some rest => stripAnnotsGo fuel rest
    | none => c :: stripAnnotsGo fuel cs

/-- `text.replace(/\s*\{[^}]*\}/g, '')` on character lists. -/
def stripAnnots (l : List Char) : List Char :=
  stripAnnotsGo l.length l

/-- Global replacement of `\s{2,}` by a single space: each maximal
whitespace run of length at least two becomes one `' '`; single
whitespace characters are kept as they are. -/
def collapseWsGo : Nat → List Char → List Char
  | 0, l => l
  | _ + 1, [] => []
  | fuel + 1, c :: cs =>
    if isJsSpace c then
      (if 2 ≤ ((c :: cs).takeWhile isJsSpace).length then [' '] else [c]) ++
        collapseWsGo fuel ((c :: cs).dropWhile isJsSpace)
    else c :: collapseWsGo fuel cs

/-- `text.replace(/\s{2,}/g, ' ')` on character lists. -/
def collapseWs (l : List Char) : List Char :=
  collapseWsGo l.length l

/-- JavaScript `String.prototype.trim` on character lists. -/
def jsTrimList (l : List Char) : List Char :=
  ((l.dropWhile isJsSpace).reverse.dropWhile isJsSpace).reverse

/-- JavaScript `String.prototype.trim`. -/
def jsTrimStr (s : String) : String :=
  String.mk (jsTrimList s.toList)

/-- `cleanKJV` on character lists: strip annotations, collapse repeated
whitespace, trim. -/
def cleanList (l : List Char) : List Char :=
  jsTrimList (collapseWs (stripAnnots l))

/-- `cleanKJV` from prayerService.ts line 42: strip KJV translator
marginal notes, collapse repeated whitespace, trim. -/
def cleanKJV (s : String) : String :=
  String.mk (cleanList s.toList)

/-- Two adjacent characters are acceptable output of the whitespace
collapser when at least one of them is not whitespace. -/
def wsSep (a b : Char) : Prop :=
  isJsSpace a = false ∨ isJsSpace b = false

/-- A JavaScript `Error` value, carrying its `message`. -/
structure JsError where
  message : String
deriving DecidableEq, Repr

/-- `RetrievedVerse` from pineconeService.ts. -/
structure RetrievedVerse where
  reference : String
  text : String
  book : String
  chapter : Nat
  verse : Nat
  score : ℚ
deriving DecidableEq, Repr

/-- `RAGSearchResult` from pineconeService.ts. -/
structure RAGSearchResult where
  query : String
  results : List RetrievedVerse
  totalFound : Nat
deriving DecidableEq, Repr

/-- The record `{ reference, text, score }` that
`generatePrayerFromRequest` projects each retrieved verse to
(prayerService.ts line 156). -/
structure RagVerse where
  reference : String
  text : String
  score : ℚ
deriving DecidableEq, Repr

/-- The object obtained from `JSON.parse(response.text || '{}')` typed as
`PrayerResponse` (prayerService.ts line 234).  `JSON.parse` performs no
schema validation, so each field may be absent (`undefined`), modelled
with `Option`. -/
structure ParsedPrayer where
  scripture : Option String
  scripture_reference : Option String
  prayer : Option String
  theme : Option String
deriving DecidableEq, Repr

/-- Errors the post-generation validation step can produce.
`typeError` is the JavaScript `TypeError` thrown when a string method is
invoked on an absent (`undefined`) field.  `schemaViolation` is the
`SchemaViolationError` that the specification's error taxonomy ascribes
to this step; it is included so that claims about it can be stated — the
source never produces it. -/
inductive PostError where
  | typeError
  | schemaViolation
deriving DecidableEq, Repr

/-- The confidence tiers of the specification; the source logs them as
HIGH / MEDIUM / LOW (prayerService.ts line 171). -/
inductive ConfidenceTier where
  | HIGH
  | MEDIUM
  | LOW
deriving DecidableEq, Repr

/-- Instruction handed to the generator when the best score is ≥ 0.75
(prayerService.ts line 160). -/
def highNote : String :=
  "These are strong matches — one of them likely speaks to what this person needs."

/-- Instruction handed to the generator when the best score is in
[0.55, 0.75) (prayerService.ts lines 161-162). -/
def mediumNote : String :=
  "These are partial matches. Use one if it genuinely fits, but if none truly speak to their heart, you may choose a different verse from your knowledge of Scripture."

/-- Instruction handed to the generator when the best score is < 0.55
(prayerService.ts lines 163-164). -/
def lowNote : String :=
  "These matches are weak. Feel free to choose a verse that better fits their need from your own knowledge of Scripture. The retrieved verses are only suggestions."

/-- The confidence classification of prayerService.ts lines 159-164:
`bestScore >= 0.75 ? HIGH : bestScore >= 0.55 ? MEDIUM : LOW`, paired
with the corresponding instruction string (`confidenceNote`). -/
def classify (bestScore : ℚ) : ConfidenceTier × String :=
  if 0.75 ≤ bestScore then (ConfidenceTier.HIGH, highNote)
  else if 0.55 ≤ bestScore then (ConfidenceTier.MEDIUM, mediumNote)
  else (ConfidenceTier.LOW, lowNote)

/-- JavaScript `q.toFixed(0)` for the non-negative rationals that occur
as percentage scores: round to the nearest integer, halves away from
zero, rendered in decimal. -/
def toFixed0 (q : ℚ) : String :=
  toString (⌊q + 1 / 2⌋)

/-- One line of the evidence list (prayerService.ts line 168):
``  ${i + 1}. ${v.reference} (relevance: ${(v.score * 100).toFixed(0)}%): "${v.text}"``. -/
def verseLine (i : Nat) (v : RetrievedVerse) : String :=
  "  " ++ toString (i + 1) ++ ". " ++ v.reference ++ " (relevance: " ++
    toFixed0 (v.score * 100) ++ "%): \"" ++ v.text ++ "\""

/-- The `ragContext` template literal of prayerService.ts lines 166-170:
blank line, header sentence, the numbered verse list, blank line, and
the confidence note for the best (first) score. -/
def buildRagContext (results : List RetrievedVerse) (bestScore : ℚ) : String :=
  "\n\nScripture verses that may be relevant (use the best fit, or find a better one if none truly match):\n" ++
    String.intercalate ("\n") (results.enum.map (fun p => verseLine p.1 p.2)) ++
    "\n\n" ++ (classify bestScore).2

/-- The retrieval stage of `generatePrayerFromRequest` (prayerService.ts
lines 151-176): `ragContext` and `ragVerses` start as `''` and `[]`; the
call to `searchVersesForPrayer` is wrapped in `try`/`catch` and any
failure is swallowed; when it succeeds with a non-empty result list the
verses are projected to `{reference, text, score}` and the evidence
block is built from the list and the best score.  The retrieval outcome
(success value or thrown error) is the function's argument. -/
def ragStage (retrieval : Except JsError RAGSearchResult) :
    String × List RagVerse :=
  match retrieval with
  | Except.error _ => ("", [])
  | Except.ok ragResult =>
    match ragResult.results with
    | [] => ("", [])
    | best :: _ =>
      (buildRagContext ragResult.results best.score,
       ragResult.results.map (fun v => RagVerse.mk v.reference v.text v.score))

/-- The loose citation-match predicate used by the reconciliation step
(prayerService.ts lines 238-241):
`prayer.scripture_reference.includes(v.reference) ||
 v.reference.includes(prayer.scripture_reference) ||
 prayer.scripture_reference.split(' ')[0] === v.reference.split(' ')[0]`. -/
def looseMatch (genRef candRef : String) : Bool :=
  jsIncludes genRef candRef || jsIncludes candRef genRef ||
    (headToken genRef == headToken candRef)

/-- The post-generation validation of `generatePrayerFromRequest`
(prayerService.ts lines 236-259).  When candidates were retrieved, the
first loosely-matching one overrides `scripture`/`scripture_reference`
with the corpus text (annotation-stripped) and its reference; otherwise
only `cleanKJV` is applied to the generator's own `scripture`.  A string
method invoked on an absent field throws a `TypeError`.  No field is
checked for presence up front. -/
def postGenValidate (p : ParsedPrayer) (ragVerses : List RagVerse) :
    Except PostError ParsedPrayer :=
  if 0 < ragVerses.length then
    match p.scripture_reference with
    | none => Except.error PostError.typeError
    | some ref =>
      match ragVerses.find? (fun v => looseMatch ref v.reference) with
      | some v =>
        Except.ok { p with scripture := some (cleanKJV v.text),
                           scripture_reference := some v.reference }
      | none =>
        match p.scripture with
        | none => Except.error PostError.typeError
        | some s => Except.ok { p with scripture := some (cleanKJV s) }
  else
    match p.scripture with
    | none => Except.error PostError.typeError
    | some s => Except.ok { p with scripture := some (cleanKJV s) }

/-- Retryability test of `withRetry` (prayerService.ts line 19):
`error?.message?.includes('503') || error?.message?.includes('overloaded')
 || error?.message?.includes('UNAVAILABLE')`. -/
def isRetryable (e : JsError) : Bool :=
  jsIncludes e.message ("503") || jsIncludes e.message ("overloaded") ||
    jsIncludes e.message ("UNAVAILABLE")

/-- The loop body of `withRetry` (prayerService.ts lines 14-30).  The
operation is modelled as a function from the attempt number to its
outcome.  `remaining` counts the loop iterations still allowed
(initially `maxRetries`), `attempt` is the current 1-based attempt
number.  Returns the final outcome, the number of attempts actually
made, and the list of back-off delays (in ms) slept between attempts. -/
def withRetryGo {α : Type} (fn : Nat → Except JsError α) (maxRetries : Nat) :
    Nat → Nat → Except JsError α × Nat × List Nat
  | 0, _ => (Except.error (JsError.mk ("Max retries exceeded")), 0, [])
  | remaining + 1, attempt =>
    match fn attempt with
    | Except.ok v => (Except.ok v, 1, [])
    | Except.error e =>
      if isRetryable e && attempt < maxRetries then
        let r := withRetryGo fn maxRetries remaining (attempt + 1)
        (r.1, r.2.1 + 1, attempt * 2000 :: r.2.2)
      else (Except.error e, 1, [])

/-- `withRetry(fn, maxRetries)` (prayerService.ts lines 14-30); the
call sites use the default `maxRetries = 3`. -/
def withRetry {α : Type} (fn : Nat → Except JsError α) (maxRetries : Nat) :
    Except JsError α × Nat × List Nat :=
  withRetryGo fn maxRetries maxRetries 1

/-- The possible outcomes of the single `fetch` of the intent
translator: the call throws, or returns a response with an `ok` flag
and the optional text at
`data.candidates?.[0]?.content?.parts?.[0]?.text`. -/
inductive FetchOutcome where
  | throw (e : JsError)
  | resp (ok : Bool) (text : Option String)
deriving DecidableEq, Repr

/-- `translateIntentToBiblical` (pineconeService.ts lines 169-204).
`hasKey` is whether `getGeminiKey()` returned a non-empty key; the
single fetch outcome is the second argument.  Returns the produced
string together with the number of external call attempts made.  With no
key it falls back to the request without calling out; a thrown fetch, a
non-ok response, a missing text field, or an empty trimmed text all fall
back to the request after the one attempt. -/
def translateIntentToBiblical (hasKey : Bool) (fetch : FetchOutcome)
    (prayerRequest : String) : String × Nat :=
  if hasKey = false then (prayerRequest, 0)
  else
    match fetch with
    | FetchOutcome.throw _ => (prayerRequest, 1)
    | FetchOutcome.resp ok text =>
      if ok = false then (prayerRequest, 1)
      else
        match text with
        | none => (prayerRequest, 1)
        | some t =>
          let tr := jsTrimStr t
          (if tr = "" then prayerRequest else tr, 1)

/-- The failure conditions of the intent translator named by the spec:
missing configuration, a fetch that throws (network failure), a non-ok
response, or a response whose text path is absent or trims to empty. -/
def translateFailure (hasKey : Bool) (fetch : FetchOutcome) : Prop :=
  hasKey = false ∨
  (∃ e, fetch = FetchOutcome.throw e) ∨
  (∃ t, fetch = FetchOutcome.resp false t) ∨
  fetch = FetchOutcome.resp true none ∨
  (∃ t, fetch = FetchOutcome.resp true (some t) ∧ jsTrimStr t = "")

/-! ## Helper lemmas -/

/-- The head element surviving `dropWhile p` fails `p`. -/
theorem dropWhile_head_false {α : Type} {p : α → Bool} :
    ∀ {l : List α} {x : α} {xs : List α}, l.dropWhile p = x :: xs → p x = false := by
  intro l
  induction l with
  | nil => intro x xs h; simp at h
  | cons a as ih =>
    intro x xs h
    rw [List.dropWhile_cons] at h
    by_cases hp : p a
    · rw [if_pos hp] at h
      exact ih h
    · rw [if_neg hp] at h
      injection h with h1 h2
      subst h1
      simpa using hp

/-- If every head of `l` fails `p` then `dropWhile p` leaves `l` alone. -/
theorem dropWhile_eq_self_of_head {α : Type} {p : α → Bool} {l : List α}
    (h : ∀ y, l.head? = some y → p y = false) : l.dropWhile p = l := by
  cases l with
  | nil => rfl
  | cons a as =>
    have ha := h a rfl
    exact List.dropWhile_cons_of_neg (by simp [ha])

/-- `dropWhile` of a list equal to `x :: xs` shows `x` is a member of
the original list. -/
theorem mem_of_dropWhile_eq_cons {α : Type} {p : α → Bool} {l : List α} {x : α}
    {xs : List α} (h : l.dropWhile p = x :: xs) : x ∈ l := by
  have hsub : (x :: xs).Sublist l := by
    rw [← h]; exact List.dropWhile_sublist p
  exact hsub.subset (List.mem_cons_self x xs)

/-- Reduction of `matchAnnotAt` when the whitespace prefix is followed
by something. -/
theorem matchAnnotAt_cons_eq {l : List Char} {c : Char} {cs : List Char}
    (hd : l.dropWhile isJsSpace = c :: cs) :
    matchAnnotAt l =
      if c = lbrace then
        match cs.dropWhile (fun d => !(d == rbrace)) with
        | [] => none
        | _ :: ds => some ds
      else none := by
  unfold matchAnnotAt
  rw [hd]

/-- Reduction of `matchAnnotAt` when nothing follows the whitespace. -/
theorem matchAnnotAt_nil_eq {l : List Char}
    (hd : l.dropWhile isJsSpace = []) : matchAnnotAt l = none := by
  unfold matchAnnotAt
  rw [hd]

/-- A successful `matchAnnotAt` leaves a sublist of the input. -/
theorem matchAnnotAt_sublist {l rest : List Char}
    (h : matchAnnotAt l = some rest) : rest.Sublist l := by
  cases hd : l.dropWhile isJsSpace with
  | nil => rw [matchAnnotAt_nil_eq hd] at h; simp at h
  | cons c cs =>
    rw [matchAnnotAt_cons_eq hd] at h
    by_cases hc : c = lbrace
    · rw [if_pos hc] at h
      cases hd2 : cs.dropWhile (fun d => !(d == rbrace)) with
      | nil => rw [hd2] at h; simp at h
      | cons x ds =>
        rw [hd2] at h
        injection h with h1
        subst h1
        have s1 : ds.Sublist (x :: ds) := List.sublist_cons_self x ds
        have s2 : (x :: ds).Sublist cs := by
          rw [← hd2]; exact List.dropWhile_sublist _
        have s3 : cs.Sublist (c :: cs) := List.sublist_cons_self c cs
        have s4 : (c :: cs).Sublist l := by
          rw [← hd]; exact List.dropWhile_sublist _
        exact ((s1.trans s2).trans s3).trans s4
    · rw [if_neg hc] at h; simp at h

/-- A successful `matchAnnotAt` consumes at least two characters. -/
theorem matchAnnotAt_length {l rest : List Char}
    (h : matchAnnotAt l = some rest) : rest.length < l.length := by
  cases hd : l.dropWhile isJsSpace with
  | nil => rw [matchAnnotAt_nil_eq hd] at h; simp at h
  | cons c cs =>
    rw [matchAnnotAt_cons_eq hd] at h
    by_cases hc : c = lbrace
    · rw [if_pos hc] at h
      cases hd2 : cs.dropWhile (fun d => !(d == rbrace)) with
      | nil => rw [hd2] at h; simp at h
      | cons x ds =>
        rw [hd2] at h
        injection h with h1
        subst h1
        have s2 : (x :: ds).length ≤ cs.length := by
          rw [← hd2]; exact (List.dropWhile_sublist _).length_le
        have s4 : (c :: cs).length ≤ l.length := by
          rw [← hd]; exact (List.dropWhile_sublist _).length_le
        simp only [List.length_cons] at s2 s4
        omega
    · rw [if_neg hc] at h; simp at h

/-- A successful `matchAnnotAt` certifies that the input contains `{`
followed (later) by `}`. -/
theorem matchAnnotAt_braces {l rest : List Char}
    (h : matchAnnotAt l = some rest) : [lbrace, rbrace].Sublist l := by
  cases hd : l.dropWhile isJsSpace with
  | nil => rw [matchAnnotAt_nil_eq hd] at h; simp at h
  | cons c cs =>
    rw [matchAnnotAt_cons_eq hd] at h
    by_cases hc : c = lbrace
    · rw [if_pos hc] at h
      cases hd2 : cs.dropWhile (fun d => !(d == rbrace)) with
      | nil => rw [hd2] at h; simp at h
      | cons x ds =>
        have hx : (fun d => !(d == rbrace)) x = false :=
          @dropWhile_head_false Char (fun d => !(d == rbrace)) cs x ds hd2
        have hx2 : x = rbrace := by simpa using hx
        have hmem : rbrace ∈ cs := by
          rw [← hx2]; exact mem_of_dropWhile_eq_cons hd2
        have hsub : [lbrace, rbrace].Sublist (c :: cs) := by
          rw [hc]
          exact List.Sublist.cons₂ lbrace (List.singleton_sublist.mpr hmem)
        have s4 : (c :: cs).Sublist l := by
          rw [← hd]; exact List.dropWhile_sublist _
        exact hsub.trans s4
    · rw [if_neg hc] at h; simp at h

/-- When the regex fails to match at a leading `{`, the rest of the
input contains no `}` at all. -/
theorem matchAnnotAt_lbrace_none {cs : List Char}
    (h : matchAnnotAt (lbrace :: cs) = none) : rbrace ∉ cs := by
  intro hmem
  have hd : (lbrace :: cs).dropWhile isJsSpace = lbrace :: cs :=
    List.dropWhile_cons_of_neg (by decide)
  rw [matchAnnotAt_cons_eq hd] at h
  rw [if_pos rfl] at h
  cases hd2 : cs.dropWhile (fun d => !(d == rbrace)) with
  | nil =>
    have hall : ∀ x ∈ cs, ((fun (d : Char) => !(d == rbrace)) x) = true :=
      List.dropWhile_eq_nil_iff.mp hd2
    have := hall rbrace hmem
    simp at this
  | cons x ds => rw [hd2] at h; simp at h

/-- Unfolding equation of `stripAnnotsGo` at zero fuel. -/
theorem stripAnnotsGo_zero (l : List Char) : stripAnnotsGo 0 l = l := rfl

/-- Unfolding equation of `stripAnnotsGo` on the empty list. -/
theorem stripAnnotsGo_nil (f : Nat) : stripAnnotsGo (f + 1) [] = [] := rfl

/-- Unfolding equation of `stripAnnotsGo` on a non-empty list. -/
theorem stripAnnotsGo_cons (f : Nat) (c : Char) (cs : List Char) :
    stripAnnotsGo (f + 1) (c :: cs) =
      match matchAnnotAt (c :: cs) with
      | some rest => stripAnnotsGo f rest
      | none => c :: stripAnnotsGo f cs := rfl

/-- The stripper output is a sublist of its input. -/
theorem stripAnnotsGo_sublist :
    ∀ (fuel : Nat) (l : List Char), (stripAnnotsGo fuel l).Sublist l := by
  intro fuel
  induction fuel with
  | zero => intro l; exact List.Sublist.refl l
  | succ f ih =>
    intro l
    cases l with
    | nil => rw [stripAnnotsGo_nil]
    | cons c cs =>
      rw [stripAnnotsGo_cons]
      cases hm : matchAnnotAt (c :: cs) with
      | some rest =>
        exact (ih rest).trans (matchAnnotAt_sublist hm)
      | none =>
        exact List.Sublist.cons₂ c (ih cs)

/-- With adequate fuel, the stripper output never contains a `{`
followed by a `}`: every emitted `{` is emitted precisely because no
`}` exists anywhere after it. -/
theorem stripAnnotsGo_braceFree :
    ∀ (fuel : Nat) (l : List Char), l.length ≤ fuel →
      ¬ [lbrace, rbrace].Sublist (stripAnnotsGo fuel l) := by
  intro fuel
  induction fuel with
  | zero =>
    intro l hl
    have : l = [] := List.eq_nil_of_length_eq_zero (Nat.le_zero.mp hl)
    subst this
    rw [stripAnnotsGo_zero]
    decide
  | succ f ih =>
    intro l hl
    cases l with
    | nil => rw [stripAnnotsGo_nil]; decide
    | cons c cs =>
      rw [stripAnnotsGo_cons]
      cases hm : matchAnnotAt (c :: cs) with
      | some rest =>
        have hlen : rest.length ≤ f := by
          have := matchAnnotAt_length hm
          simp only [List.length_cons] at this hl
          omega
        exact ih rest hlen
      | none =>
        show ¬ [lbrace, rbrace].Sublist (c :: stripAnnotsGo f cs)
        intro hbad
        have hcs : cs.length ≤ f := by
          simp only [List.length_cons] at hl; omega
        cases hbad with
        | cons _ h => exact ih cs hcs h
        | cons₂ _ h =>
          have hmem : rbrace ∈ stripAnnotsGo f cs := List.singleton_sublist.mp h
          have hmem2 : rbrace ∈ cs := (stripAnnotsGo_sublist f cs).subset hmem
          exact matchAnnotAt_lbrace_none hm hmem2

/-- On a brace-free list the stripper is the identity, for any fuel. -/
theorem stripAnnotsGo_id_of_braceFree :
    ∀ (fuel : Nat) (l : List Char), ¬ [lbrace, rbrace].Sublist l →
      stripAnnotsGo fuel l = l := by
  intro fuel
  induction fuel with
  | zero => intro l _; rfl
  | succ f ih =>
    intro l hbf
    cases l with
    | nil => rw [stripAnnotsGo_nil]
    | cons c cs =>
      rw [stripAnnotsGo_cons]
      cases hm : matchAnnotAt (c :: cs) with
      | some rest => exact absurd (matchAnnotAt_braces hm) hbf
      | none =>
        show c :: stripAnnotsGo f cs = c :: cs
        have hcs : ¬ [lbrace, rbrace].Sublist cs := by
          intro h
          exact hbf (h.trans (List.sublist_cons_self c cs))
        rw [ih cs hcs]

/-- Unfolding equation of `collapseWsGo` at zero fuel. -/
theorem collapseWsGo_zero (l : List Char) : collapseWsGo 0 l = l := rfl

/-- Unfolding equation of `collapseWsGo` on the empty list. -/
theorem collapseWsGo_nil (f : Nat) : collapseWsGo (f + 1) [] = [] := rfl

/-- `collapseWsGo` of the empty list is empty for any fuel. -/
theorem collapseWsGo_nil_any (f : Nat) : collapseWsGo f [] = [] := by
  cases f with
  | zero => rfl
  | succ f => rfl

/-- Unfolding equation of `collapseWsGo` on a non-empty list. -/
theorem collapseWsGo_cons (f : Nat) (c : Char) (cs : List Char) :
    collapseWsGo (f + 1) (c :: cs) =
      if isJsSpace c then
        (if 2 ≤ ((c :: cs).takeWhile isJsSpace).length then [' '] else [c]) ++
          collapseWsGo f ((c :: cs).dropWhile isJsSpace)
      else c :: collapseWsGo f cs := rfl

/-- Dropping a whitespace prefix does not change the non-whitespace
characters of a list. -/
theorem filter_nonWs_dropWhile (l : List Char) :
    (l.dropWhile isJsSpace).filter (fun c => !isJsSpace c) =
      l.filter (fun c => !isJsSpace c) := by
  induction l with
  | nil => rfl
  | cons a as ih =>
    by_cases ha : isJsSpace a
    · rw [List.dropWhile_cons_of_pos ha, ih,
        List.filter_cons_of_neg (by simp [ha])]
    · rw [List.dropWhile_cons_of_neg ha]

/-- The whitespace collapser preserves the non-whitespace characters of
its input, in order. -/
theorem collapseWsGo_filter :
    ∀ (fuel : Nat) (l : List Char),
      (collapseWsGo fuel l).filter (fun c => !isJsSpace c) =
        l.filter (fun c => !isJsSpace c) := by
  intro fuel
  induction fuel with
  | zero => intro l; rfl
  | succ f ih =>
    intro l
    cases l with
    | nil => rfl
    | cons c cs =>
      rw [collapseWsGo_cons]
      by_cases hc : isJsSpace c
      · rw [if_pos hc, List.filter_append]
        have hx : ∀ x : Char, isJsSpace x = true →
            (if 2 ≤ ((c :: cs).takeWhile isJsSpace).length then [x] else [c]).filter
              (fun d => !isJsSpace d) = [] := by
          intro x hxs
          by_cases h2 : 2 ≤ ((c :: cs).takeWhile isJsSpace).length
          · rw [if_pos h2]; simp [hxs]
          · rw [if_neg h2]; simp [hc]
        rw [hx ' ' (by decide), List.nil_append, ih,
          filter_nonWs_dropWhile, List.filter_cons_of_neg (by simp [hc])]
      · rw [if_neg hc, List.filter_cons_of_pos (by simp [hc]),
          ih, List.filter_cons_of_pos (by simp [hc])]

/-- The whitespace collapser never creates a `{` followed by a `}`. -/
theorem braceFree_collapseWsGo (fuel : Nat) (l : List Char)
    (h : ¬ [lbrace, rbrace].Sublist l) :
    ¬ [lbrace, rbrace].Sublist (collapseWsGo fuel l) := by
  intro hbad
  have h1 : [lbrace, rbrace].filter (fun c => !isJsSpace c) = [lbrace, rbrace] := by
    decide
  have h2 := List.Sublist.filter (fun c => !isJsSpace c) hbad
  rw [h1, collapseWsGo_filter] at h2
  exact h (h2.trans (List.filter_sublist l))

/-- Trimming yields a sublist. -/
theorem jsTrimList_sublist (l : List Char) : (jsTrimList l).Sublist l := by
  unfold jsTrimList
  have h1 : (l.dropWhile isJsSpace).Sublist l := List.dropWhile_sublist _
  have h2 : ((l.dropWhile isJsSpace).reverse.dropWhile isJsSpace).Sublist
      (l.dropWhile isJsSpace).reverse := List.dropWhile_sublist _
  have h3 := h2.reverse
  rw [List.reverse_reverse] at h3
  exact h3.trans h1

/-- The full cleaner never outputs a `{` followed by a `}`. -/
theorem braceFree_cleanList (l : List Char) :
    ¬ [lbrace, rbrace].Sublist (cleanList l) := by
  intro hbad
  have h1 : ¬ [lbrace, rbrace].Sublist (stripAnnots l) :=
    stripAnnotsGo_braceFree l.length l le_rfl
  have h2 : ¬ [lbrace, rbrace].Sublist (collapseWs (stripAnnots l)) :=
    braceFree_collapseWsGo _ _ h1
  exact h2 (hbad.trans (jsTrimList_sublist _))

/-- The full cleaner never outputs a `{` followed by a `}` (string
version). -/
theorem braceFree_cleanKJV (s : String) :
    ¬ [lbrace, rbrace].Sublist (cleanKJV s).toList :=
  braceFree_cleanList s.toList

/-- The head element surviving `dropWhile p` fails `p` (`head?` form). -/
theorem dropWhile_head?_false {α : Type} {p : α → Bool} {l : List α} {y : α}
    (hy : (l.dropWhile p).head? = some y) : p y = false := by
  cases hd : l.dropWhile p with
  | nil => rw [hd] at hy; simp at hy
  | cons a as =>
    rw [hd] at hy
    simp only [List.head?_cons, Option.some.injEq] at hy
    subst hy
    exact @dropWhile_head_false α p l a as hd

/-- The collapser does not change a non-whitespace head. -/
theorem collapseWsGo_head_nonWs :
    ∀ (fuel : Nat) (l : List Char),
      (∀ y, l.head? = some y → isJsSpace y = false) →
      ∀ y, (collapseWsGo fuel l).head? = some y → isJsSpace y = false := by
  intro fuel
  induction fuel with
  | zero => intro l h y hy; exact h y hy
  | succ f _ =>
    intro l h y hy
    cases l with
    | nil => rw [collapseWsGo_nil] at hy; simp at hy
    | cons c cs =>
      have hc : isJsSpace c = false := h c rfl
      rw [collapseWsGo_cons, if_neg (by simp [hc])] at hy
      simp only [List.head?_cons, Option.some.injEq] at hy
      subst hy
      exact hc

/-- With adequate fuel, the collapser output never has two adjacent
whitespace characters. -/
theorem chain'_wsSep_collapseWsGo :
    ∀ (fuel : Nat) (l : List Char), l.length ≤ fuel →
      List.Chain' wsSep (collapseWsGo fuel l) := by
  intro fuel
  induction fuel with
  | zero =>
    intro l hl
    have : l = [] := List.eq_nil_of_length_eq_zero (Nat.le_zero.mp hl)
    subst this
    exact List.chain'_nil
  | succ f ih =>
    intro l hl
    cases l with
    | nil => rw [collapseWsGo_nil]; exact List.chain'_nil
    | cons c cs =>
      have hcs : cs.length ≤ f := by
        simp only [List.length_cons] at hl; omega
      rw [collapseWsGo_cons]
      by_cases hc : isJsSpace c
      · rw [if_pos hc]
        have hrest : ((c :: cs).dropWhile isJsSpace).length ≤ f := by
          rw [List.dropWhile_cons_of_pos hc]
          exact le_trans (List.dropWhile_sublist isJsSpace).length_le hcs
        have hhead : ∀ y, (collapseWsGo f ((c :: cs).dropWhile isJsSpace)).head? = some y →
            isJsSpace y = false := by
          intro y hy
          exact collapseWsGo_head_nonWs f _ (fun z hz => dropWhile_head?_false hz) y hy
        have htail : List.Chain' wsSep (collapseWsGo f ((c :: cs).dropWhile isJsSpace)) :=
          ih _ hrest
        by_cases h2 : 2 ≤ ((c :: cs).takeWhile isJsSpace).length
        · rw [if_pos h2, List.singleton_append]
          exact List.chain'_cons'.mpr ⟨fun y hy => Or.inr (hhead y hy), htail⟩
        · rw [if_neg h2, List.singleton_append]
          exact List.chain'_cons'.mpr ⟨fun y hy => Or.inr (hhead y hy), htail⟩
      · rw [if_neg hc]
        have hc' : isJsSpace c = false := by
          cases hb : isJsSpace c with
          | false => rfl
          | true => exact absurd hb hc
        exact List.chain'_cons'.mpr ⟨fun y _ => Or.inl hc', ih cs hcs⟩

/-- On a list with no two adjacent whitespace characters the collapser
is the identity, for any fuel. -/
theorem collapseWsGo_id_of_chain' :
    ∀ (fuel : Nat) (l : List Char), List.Chain' wsSep l →
      collapseWsGo fuel l = l := by
  intro fuel
  induction fuel with
  | zero => intro l _; rfl
  | succ f ih =>
    intro l h
    cases l with
    | nil => rw [collapseWsGo_nil]
    | cons c cs =>
      rw [collapseWsGo_cons]
      by_cases hc : isJsSpace c
      · rw [if_pos hc]
        cases cs with
        | nil =>
          rw [List.dropWhile_cons_of_pos hc]
          show (if 2 ≤ (List.takeWhile isJsSpace [c]).length then [' '] else [c]) ++
              collapseWsGo f (List.dropWhile isJsSpace []) = [c]
          rw [List.takeWhile_cons_of_pos hc]
          simp only [List.takeWhile_nil, List.dropWhile_nil, List.length_cons,
            List.length_nil]
          rw [if_neg (by omega), collapseWsGo_nil_any, List.append_nil]
        | cons d ds =>
          have hcd : wsSep c d := (List.chain'_cons.mp h).1
          have htail : List.Chain' wsSep (d :: ds) := (List.chain'_cons.mp h).2
          have hd : isJsSpace d = false := by
            cases hcd with
            | inl h1 => rw [hc] at h1; exact absurd h1 (by simp)
            | inr h1 => exact h1
          rw [List.takeWhile_cons_of_pos hc, List.takeWhile_cons_of_neg (by simp [hd])]
          rw [List.dropWhile_cons_of_pos hc, List.dropWhile_cons_of_neg (by simp [hd])]
          simp only [List.length_cons, List.length_nil]
          rw [if_neg (by omega), List.singleton_append, ih _ htail]
      · rw [if_neg hc, ih cs h.tail]

/-- `wsSep` chains are preserved by `reverse` (the relation is
symmetric). -/
theorem chain'_wsSep_reverse {l : List Char} (h : List.Chain' wsSep l) :
    List.Chain' wsSep l.reverse := by
  rw [List.chain'_reverse]
  exact List.Chain'.imp (fun a b hab => (Or.symm hab : wsSep b a)) h

/-- `wsSep` chains are preserved by `dropWhile`. -/
theorem chain'_wsSep_dropWhile {l : List Char} (h : List.Chain' wsSep l) :
    List.Chain' wsSep (l.dropWhile isJsSpace) := by
  have h2 : List.Chain' wsSep (l.takeWhile isJsSpace ++ l.dropWhile isJsSpace) := by
    rw [List.takeWhile_append_dropWhile]
    exact h
  exact (List.chain'_append.mp h2).2.1

/-- `wsSep` chains are preserved by trimming. -/
theorem chain'_wsSep_trim {l : List Char} (h : List.Chain' wsSep l) :
    List.Chain' wsSep (jsTrimList l) :=
  chain'_wsSep_reverse (chain'_wsSep_dropWhile (chain'_wsSep_reverse
    (chain'_wsSep_dropWhile h)))

/-- The trimmed list is a leading segment of the left-trimmed list. -/
theorem jsTrimList_prefix_eq (l : List Char) :
    l.dropWhile isJsSpace =
      jsTrimList l ++
        ((l.dropWhile isJsSpace).reverse.takeWhile isJsSpace).reverse := by
  unfold jsTrimList
  rw [← List.reverse_append, List.takeWhile_append_dropWhile, List.reverse_reverse]

/-- The head of the trimmed list is not whitespace. -/
theorem jsTrimList_head_nonWs (l : List Char) :
    ∀ y, (jsTrimList l).head? = some y → isJsSpace y = false := by
  intro y hy
  cases hb : jsTrimList l with
  | nil => rw [hb] at hy; simp at hy
  | cons b bs =>
    rw [hb] at hy
    simp only [List.head?_cons, Option.some.injEq] at hy
    subst hy
    have hA := jsTrimList_prefix_eq l
    rw [hb, List.cons_append] at hA
    exact @dropWhile_head_false Char isJsSpace l b _ hA

/-- Trimming is idempotent. -/
theorem jsTrimList_idem (l : List Char) :
    jsTrimList (jsTrimList l) = jsTrimList l := by
  have h1 : (jsTrimList l).dropWhile isJsSpace = jsTrimList l :=
    dropWhile_eq_self_of_head (jsTrimList_head_nonWs l)
  have hrev : (jsTrimList l).reverse =
      (l.dropWhile isJsSpace).reverse.dropWhile isJsSpace := by
    unfold jsTrimList
    rw [List.reverse_reverse]
  have h2 : (jsTrimList l).reverse.dropWhile isJsSpace = (jsTrimList l).reverse := by
    apply dropWhile_eq_self_of_head
    intro y hy
    rw [hrev] at hy
    exact dropWhile_head?_false hy
  show (((jsTrimList l).dropWhile isJsSpace).reverse.dropWhile isJsSpace).reverse =
    jsTrimList l
  rw [h1, h2, List.reverse_reverse]

/-- The full cleaner is idempotent on character lists. -/
theorem cleanList_idem (l : List Char) : cleanList (cleanList l) = cleanList l := by
  have hbf : ¬ [lbrace, rbrace].Sublist (cleanList l) := braceFree_cleanList l
  have hch : List.Chain' wsSep (cleanList l) :=
    chain'_wsSep_trim (chain'_wsSep_collapseWsGo (stripAnnots l).length
      (stripAnnots l) le_rfl)
  show jsTrimList (collapseWs (stripAnnots (cleanList l))) = cleanList l
  rw [show stripAnnots (cleanList l) = cleanList l from
    stripAnnotsGo_id_of_braceFree (cleanList l).length (cleanList l) hbf]
  rw [show collapseWs (cleanList l) = cleanList l from
    collapseWsGo_id_of_chain' (cleanList l).length (cleanList l) hch]
  show jsTrimList (jsTrimList (collapseWs (stripAnnots l))) =
    jsTrimList (collapseWs (stripAnnots l))
  exact jsTrimList_idem _

/-- Unfolding equation of `withRetryGo` with attempts remaining. -/
theorem withRetryGo_succ {α : Type} (fn : Nat → Except JsError α)
    (mr rem att : Nat) :
    withRetryGo fn mr (rem + 1) att =
      match fn att with
      | Except.ok v => (Except.ok v, 1, [])
      | Except.error e =>
        if isRetryable e && att < mr then
          let r := withRetryGo fn mr rem (att + 1)
          (r.1, r.2.1 + 1, att * 2000 :: r.2.2)
        else (Except.error e, 1, []) := rfl

/-- Anatomy of a successful `postGenValidate` run: the returned
`scripture` was produced by `cleanKJV`, and `theme` and `prayer` are
passed through untouched. -/
theorem postGenValidate_ok_spec {p : ParsedPrayer} {rv : List RagVerse}
    {r : ParsedPrayer} (hok : postGenValidate p rv = Except.ok r) :
    (∃ t, r.scripture = some (cleanKJV t)) ∧
      r.theme = p.theme ∧ r.prayer = p.prayer := by
  unfold postGenValidate at hok
  split at hok
  · split at hok
    · simp at hok
    · split at hok
      · injection hok with h
        subst h
        rename_i v _
        exact ⟨⟨v.text, rfl⟩, rfl, rfl⟩
      · split at hok
        · simp at hok
        · injection hok with h
          subst h
          rename_i s _
          exact ⟨⟨s, rfl⟩, rfl, rfl⟩
  · split at hok
    · simp at hok
    · injection hok with h
      subst h
      rename_i s _
      exact ⟨⟨s, rfl⟩, rfl, rfl⟩

/-! ## Claims -/

/-- Claim C1: the confidence classification of the best candidate's
similarity score selects exactly one of three tiers with
lower-bound-inclusive boundaries — `s ≥ 0.75` yields the HIGH
instruction, `0.55 ≤ s < 0.75` the MEDIUM instruction, `s < 0.55` the
LOW instruction; in particular `classify 0.75 = HIGH`,
`classify 0.749999 = MEDIUM`, `classify 0.55 = MEDIUM`,
`classify 0.549999 = LOW`, and the three instruction strings are
pairwise distinct. -/
theorem claim1_confidence_tiers :
    (∀ s : ℚ,
      ((0.75 : ℚ) ≤ s → classify s = (ConfidenceTier.HIGH, highNote)) ∧
      ((0.55 : ℚ) ≤ s ∧ s < 0.75 →
        classify s = (ConfidenceTier.MEDIUM, mediumNote)) ∧
      (s < (0.55 : ℚ) → classify s = (ConfidenceTier.LOW, lowNote))) ∧
    classify 0.75 = (ConfidenceTier.HIGH, highNote) ∧
    classify 0.749999 = (ConfidenceTier.MEDIUM, mediumNote) ∧
    classify 0.55 = (ConfidenceTier.MEDIUM, mediumNote) ∧
    classify 0.549999 = (ConfidenceTier.LOW, lowNote) ∧
    highNote ≠ mediumNote ∧ highNote ≠ lowNote ∧ mediumNote ≠ lowNote := by
  refine ⟨?_, ?_, ?_, ?_, ?_, ?_, ?_, ?_⟩
  · intro s
    refine ⟨fun h => ?_, fun h => ?_, fun h => ?_⟩
    · unfold classify
      rw [if_pos h]
    · unfold classify
      rw [if_neg (not_le.mpr h.2), if_pos h.1]
    · unfold classify
      rw [if_neg (not_le.mpr (lt_trans h (by norm_num))), if_neg (not_le.mpr h)]
  · unfold classify
    rw [if_pos le_rfl]
  · unfold classify
    rw [if_neg (by norm_num), if_pos (by norm_num)]
  · unfold classify
    rw [if_neg (by norm_num), if_pos le_rfl]
  · unfold classify
    rw [if_neg (by norm_num), if_neg (by norm_num)]
  · decide
  · decide
  · decide

/-- Witness for C1: the three tiers at the scores 0.8, 0.6 and 0.3. -/
theorem claim1_witness :
    classify 0.8 = (ConfidenceTier.HIGH, highNote) ∧
    classify 0.6 = (ConfidenceTier.MEDIUM, mediumNote) ∧
    classify 0.3 = (ConfidenceTier.LOW, lowNote) :=
  ⟨(claim1_confidence_tiers.1 0.8).1 (by norm_num),
   (claim1_confidence_tiers.1 0.6).2.1 ⟨by norm_num, by norm_num⟩,
   (claim1_confidence_tiers.1 0.3).2.2 (by norm_num)⟩

/-- Counterexample to claim C2: a successfully parsed response that is
missing the required field `theme` does not raise any error — in
particular not a `SchemaViolationError` — and is returned as the final
result, with `theme` still absent. -/
theorem claim2_counterexample :
    (ParsedPrayer.mk (some ("For God so loved the world"))
      (some ("John 3:16")) (some ("a short prayer")) none).theme = none ∧
    postGenValidate (ParsedPrayer.mk (some ("For God so loved the world"))
        (some ("John 3:16")) (some ("a short prayer")) none) [] =
      Except.ok (ParsedPrayer.mk
        (some (cleanKJV ("For God so loved the world")))
        (some ("John 3:16")) (some ("a short prayer")) none) ∧
    Except.ok (ParsedPrayer.mk
        (some (cleanKJV ("For God so loved the world")))
        (some ("John 3:16")) (some ("a short prayer")) none) ≠
      Except.error PostError.schemaViolation := by
  refine ⟨rfl, rfl, ?_⟩
  intro h
  exact Except.noConfusion h

/-- Amended claim C2: the generation step performs no schema validation
on the parsed response and never raises a `SchemaViolationError`.  A
response missing `theme` is returned with the field absent, with no
error and no retry; a response missing `scripture` (on the no-candidate
path), or missing `scripture_reference` when candidates are present,
surfaces only later, as a `TypeError` inside the reconciliation step. -/
theorem claim2_no_schema_validation :
    (∀ s r pr,
      postGenValidate (ParsedPrayer.mk (some s) (some r) (some pr) none) [] =
        Except.ok (ParsedPrayer.mk (some (cleanKJV s)) (some r) (some pr) none)) ∧
    (∀ r pr t,
      postGenValidate (ParsedPrayer.mk none (some r) pr t) [] =
        Except.error PostError.typeError) ∧
    (∀ (rv : List RagVerse) s pr t, rv ≠ [] →
      postGenValidate (ParsedPrayer.mk s none pr t) rv =
        Except.error PostError.typeError) := by
  refine ⟨fun s r pr => rfl, fun r pr t => rfl, fun rv s pr t h => ?_⟩
  cases rv with
  | nil => exact absurd rfl h
  | cons v vs =>
    unfold postGenValidate
    rw [if_pos (by simp)]

/-- Witness for the amended C2: a missing citation label with one
retrieved candidate throws a `TypeError`, not a `SchemaViolationError`. -/
theorem claim2_witness :
    postGenValidate (ParsedPrayer.mk (some ("s")) none (some ("pr")) (some ("th")))
      [RagVerse.mk ("Ref 1:1") ("text") 1] = Except.error PostError.typeError :=
  claim2_no_schema_validation.2.2 _ _ _ _ (List.cons_ne_nil _ _)

/-- Claim C3: when the generator's citation label loosely matches some
candidate's label (containment either way, or equal leading
space-delimited tokens), the reconciled output's citation text is the
annotation-stripped corpus text of a matching candidate (the first such)
and its label is that candidate's label. -/
theorem claim3_matched_citation_override (p : ParsedPrayer)
    (rv : List RagVerse) (ref : String)
    (href : p.scripture_reference = some ref)
    (hmatch : ∃ v ∈ rv, looseMatch ref v.reference = true) :
    ∃ v ∈ rv, looseMatch ref v.reference = true ∧
      postGenValidate p rv =
        Except.ok { p with scripture := some (cleanKJV v.text),
                           scripture_reference := some v.reference } := by
  obtain ⟨v0, hv0, hm0⟩ := hmatch
  have hpos : 0 < rv.length := List.length_pos.mpr (List.ne_nil_of_mem hv0)
  have hsome : (rv.find? (fun v => looseMatch ref v.reference)).isSome := by
    rw [List.find?_isSome]
    exact ⟨v0, hv0, hm0⟩
  obtain ⟨w, hw⟩ := Option.isSome_iff_exists.mp hsome
  have hpw : looseMatch ref w.reference = true := by
    have h2 := List.find?_some hw
    simpa using h2
  refine ⟨w, List.mem_of_find?_eq_some hw, hpw, ?_⟩
  unfold postGenValidate
  rw [if_pos hpos]
  split
  · rename_i heq
    rw [href] at heq
    simp at heq
  · rename_i ref2 heq
    rw [href] at heq
    injection heq with h3
    subst h3
    split
    · rename_i v2 heq2
      rw [hw] at heq2
      injection heq2 with h4
      subst h4
      rfl
    · rename_i heq2
      rw [hw] at heq2
      simp at heq2

/-- Witness for C3: the label "John 3" matches the candidate labelled
"John 3:16" and the candidate's cleaned corpus text wins. -/
theorem claim3_witness :
    ∃ v ∈ [RagVerse.mk ("John 3:16") ("For God so loved the world") (81 / 100)],
      looseMatch ("John 3") v.reference = true ∧
      postGenValidate
        (ParsedPrayer.mk (some ("gen text")) (some ("John 3")) (some ("pr"))
          (some ("th")))
        [RagVerse.mk ("John 3:16") ("For God so loved the world") (81 / 100)] =
        Except.ok (ParsedPrayer.mk (some (cleanKJV v.text))
          (some v.reference) (some ("pr")) (some ("th"))) :=
  claim3_matched_citation_override
    (ParsedPrayer.mk (some ("gen text")) (some ("John 3")) (some ("pr"))
      (some ("th")))
    [RagVerse.mk ("John 3:16") ("For God so loved the world") (81 / 100)]
    ("John 3") rfl
    ⟨RagVerse.mk ("John 3:16") ("For God so loved the world") (81 / 100),
      List.mem_singleton.mpr rfl, by decide⟩

/-- Claim C4: a retrieval failure is caught inside the retrieval stage,
as is an empty candidate list; in both cases the evidence block handed
to generation is the empty string and the candidate list is empty, and
reconciliation with no candidates keeps the generator's own citation:
the label unchanged, the text subjected only to annotation-stripping. -/
theorem claim4_retrieval_failure_degrades :
    (∀ e, ragStage (Except.error e) = ("", [])) ∧
    (∀ q n, ragStage (Except.ok (RAGSearchResult.mk q [] n)) = ("", [])) ∧
    (∀ (p : ParsedPrayer) (s : String), p.scripture = some s →
      postGenValidate p [] =
        Except.ok { p with scripture := some (cleanKJV s) }) := by
  refine ⟨fun e => rfl, fun q n => rfl, fun p s hs => ?_⟩
  unfold postGenValidate
  rw [if_neg (by decide)]
  rw [hs]

/-- Witness for C4: with no candidates, a generator citation text with a
marginal note is only annotation-stripped; the label survives. -/
theorem claim4_witness :
    postGenValidate (ParsedPrayer.mk (some ("he spake \x7bor, said\x7d thus"))
        (some ("Ref 1:1")) (some ("pr")) (some ("th"))) [] =
      Except.ok (ParsedPrayer.mk
        (some (cleanKJV ("he spake \x7bor, said\x7d thus")))
        (some ("Ref 1:1")) (some ("pr")) (some ("th"))) :=
  claim4_retrieval_failure_degrades.2.2 _ _ rfl

/-- Claim C5: an operation failing on every attempt with a retryable
signal is attempted exactly 3 times with back-off delays of 2000 ms and
4000 ms between consecutive attempts, after which the error is raised
(the spec's `GenerationError` for the generation call sites); a
non-retryable error is raised after a single attempt. -/
theorem claim5_retry_bound {α : Type} (fn : Nat → Except JsError α)
    (e : JsError) (h : ∀ n, fn n = Except.error e) :
    (isRetryable e = true →
      withRetry fn 3 = (Except.error e, 3, [2000, 4000])) ∧
    (isRetryable e = false →
      withRetry fn 3 = (Except.error e, 1, [])) := by
  constructor
  · intro hr
    show withRetryGo fn 3 3 1 = _
    rw [withRetryGo_succ, h 1]
    rw [withRetryGo_succ, h 2]
    rw [withRetryGo_succ, h 3]
    simp [hr]
  · intro hr
    show withRetryGo fn 3 3 1 = _
    rw [withRetryGo_succ, h 1]
    simp [hr]

/-- Witness for C5: a constant 503-style failure exhausts 3 attempts
with delays 2000 and 4000 ms; a non-retryable failure is raised at
once. -/
theorem claim5_witness :
    withRetry (fun _ => (Except.error (JsError.mk ("503 UNAVAILABLE")) :
        Except JsError Unit)) 3 =
      (Except.error (JsError.mk ("503 UNAVAILABLE")), 3, [2000, 4000]) ∧
    withRetry (fun _ => (Except.error (JsError.mk ("bad request")) :
        Except JsError Unit)) 3 =
      (Except.error (JsError.mk ("bad request")), 1, []) :=
  ⟨(claim5_retry_bound _ _ (fun _ => rfl)).1 (by decide),
   (claim5_retry_bound _ _ (fun _ => rfl)).2 (by decide)⟩

/-- Claim C6: for every query and every failing external call — missing
configuration, a fetch that throws, a non-ok response, or a malformed
response — the intent translator returns exactly the query (it is a
total function, so it never throws) and makes at most one external
attempt. -/
theorem claim6_translator_fallback (hasKey : Bool) (fetch : FetchOutcome)
    (q : String) (h : translateFailure hasKey fetch) :
    (translateIntentToBiblical hasKey fetch q).1 = q ∧
    (translateIntentToBiblical hasKey fetch q).2 ≤ 1 := by
  rcases h with hk | ⟨e, rfl⟩ | ⟨t, rfl⟩ | rfl | ⟨t, rfl, ht⟩
  · subst hk
    exact ⟨rfl, Nat.zero_le 1⟩
  · cases hasKey with
    | false => exact ⟨rfl, Nat.zero_le 1⟩
    | true => exact ⟨rfl, le_rfl⟩
  · cases hasKey with
    | false => exact ⟨rfl, Nat.zero_le 1⟩
    | true => exact ⟨rfl, le_rfl⟩
  · cases hasKey with
    | false => exact ⟨rfl, Nat.zero_le 1⟩
    | true => exact ⟨rfl, le_rfl⟩
  · cases hasKey with
    | false => exact ⟨rfl, Nat.zero_le 1⟩
    | true =>
      refine ⟨?_, le_rfl⟩
      show (if jsTrimStr t = "" then q else jsTrimStr t) = q
      rw [if_pos ht]

/-- Witness for C6: a throwing fetch falls back to the query in one
attempt. -/
theorem claim6_witness :
    (translateIntentToBiblical true
      (FetchOutcome.throw (JsError.mk ("network down"))) ("peace")).1 =
        "peace" ∧
    (translateIntentToBiblical true
      (FetchOutcome.throw (JsError.mk ("network down"))) ("peace")).2 ≤ 1 :=
  claim6_translator_fallback true _ _ (Or.inr (Or.inl ⟨_, rfl⟩))

/-- Counterexample to claim C7: `cleanKJV` applied to a lone unmatched
opening brace leaves it in place, so the output can contain `{`. -/
theorem claim7_counterexample :
    cleanKJV ("\x7b") = "\x7b" ∧ lbrace ∈ (cleanKJV ("\x7b")).toList ∧
    cleanKJV ("\x7d") = "\x7d" ∧ rbrace ∈ (cleanKJV ("\x7d")).toList := by
  refine ⟨by decide, by decide, by decide, by decide⟩

/-- Amended claim C7: `cleanKJV` output never contains a complete
annotation block — no `{` character is ever followed, anywhere later in
the output, by a `}`.  Lone unmatched braces pass through unchanged. -/
theorem claim7_no_complete_block (s : String) :
    ¬ [lbrace, rbrace].Sublist (cleanKJV s).toList :=
  braceFree_cleanKJV s

/-- Claim C8: annotation-stripping (the full `cleanKJV` normalisation)
is idempotent. -/
theorem claim8_strip_idempotent (s : String) :
    cleanKJV (cleanKJV s) = cleanKJV s :=
  congrArg String.mk (cleanList_idem s.toList)

/-- Claim C9: every successful reconciliation produces a citation text
with no bracketed annotation markup: on every branch the final
`scripture` went through `cleanKJV`, whose output never has a `{`
followed by a `}`. -/
theorem claim9_citation_brace_free (p : ParsedPrayer) (rv : List RagVerse)
    (r : ParsedPrayer) (s : String)
    (hok : postGenValidate p rv = Except.ok r)
    (hs : r.scripture = some s) :
    ¬ [lbrace, rbrace].Sublist s.toList := by
  obtain ⟨⟨t, ht⟩, -, -⟩ := postGenValidate_ok_spec hok
  rw [ht] at hs
  injection hs with hs2
  subst hs2
  exact braceFree_cleanKJV t

/-- Witness for C9: a concrete run whose citation text carried a
marginal note comes out brace-free. -/
theorem claim9_witness :
    ¬ [lbrace, rbrace].Sublist
      (cleanKJV ("he \x7bor, she\x7d spake unto them")).toList :=
  claim9_citation_brace_free
    (ParsedPrayer.mk (some ("he \x7bor, she\x7d spake unto them"))
      (some ("Ref 1:1")) (some ("pr")) (some ("th"))) []
    (ParsedPrayer.mk (some (cleanKJV ("he \x7bor, she\x7d spake unto them")))
      (some ("Ref 1:1")) (some ("pr")) (some ("th")))
    (cleanKJV ("he \x7bor, she\x7d spake unto them")) rfl rfl

/-- Claim C10: reconciliation only rewrites the citation fields — the
`theme` and `prayer` fields of any successful result are exactly the
parsed values. -/
theorem claim10_frame_theme_prayer (p : ParsedPrayer) (rv : List RagVerse)
    (r : ParsedPrayer) (hok : postGenValidate p rv = Except.ok r) :
    r.theme = p.theme ∧ r.prayer = p.prayer :=
  (postGenValidate_ok_spec hok).2

/-- Witness for C10: a concrete no-candidate run keeps `theme` and
`prayer` untouched. -/
theorem claim10_witness :
    (ParsedPrayer.mk (some (cleanKJV ("text"))) (some ("Ref 1:1"))
      (some ("pr")) (some ("th"))).theme =
      (ParsedPrayer.mk (some ("text")) (some ("Ref 1:1")) (some ("pr"))
        (some ("th"))).theme ∧
    (ParsedPrayer.mk (some (cleanKJV ("text"))) (some ("Ref 1:1"))
      (some ("pr")) (some ("th"))).prayer =
      (ParsedPrayer.mk (some ("text")) (some ("Ref 1:1")) (some ("pr"))
        (some ("th"))).prayer :=
  claim10_frame_theme_prayer _ [] _ rfl

end SSV
